import Mathlib

/-!
# Verification of the Nextflow-AutoPilot generation pipeline

Shallow embedding of `src/nextflow_generator/main.py` and of the pipeline
runtime it configures, together with proofs of the specified properties.

The filesystem side effects of `create_path` are modelled by an explicit
store mapping paths (lists of components) to entries (directory or file
with content).  The execution semantics of the surrounding agent runtime
(sequential stage execution, HTTP retry, events compaction) is configured
but not implemented in the repository; those parts are modelled from the
specification, over the concrete configuration values taken from the
source.
-/

namespace NFGen

/-- A filesystem entry: a directory, or a file with its exact content. -/
inductive Entry where
  | dir : Entry
  | file (content : String) : Entry
deriving DecidableEq, Repr

/-- The filesystem store: an association list from paths (component lists)
to entries.  More recent entries shadow older ones. -/
def FS := List (List String × Entry)

instance : DecidableEq FS := by unfold FS; infer_instance

/-- Look up the entry stored at a path. -/
def FS.lookup (fs : FS) (p : List String) : Option Entry :=
  match fs with
  | [] => none
  | (q, e) :: rest => if q = p then some e else FS.lookup rest p

/-- `true` iff the entry at the path is a file. -/
def FS.isFileAt (fs : FS) (p : List String) : Bool :=
  match fs.lookup p with
  | some (Entry.file _) => true
  | _ => false

/-- The nonempty initial segments of a path, shortest first:
`chains ["a","b","c"] = [["a"], ["a","b"], ["a","b","c"]]`.  These are the
directories `Path.mkdir(parents=True)` touches, top-down. -/
def chains : List String → List (List String)
  | [] => []
  | a :: rest => [a] :: (chains rest).map (fun q => a :: q)

/-- One step of `Path.mkdir(parents=True, exist_ok=True)`: walk the chain of
initial segments top-down, creating each missing directory; an existing
directory is skipped, an existing file aborts with an error (the
directories already created persist, as on a real filesystem). -/
def mkdirAll (fs : FS) : List (List String) → FS × Option String
  | [] => (fs, none)
  | p :: rest =>
    match fs.lookup p with
    | some (Entry.file _) => (fs, some "FileExistsError")
    | some Entry.dir => mkdirAll fs rest
    | none => mkdirAll ((p, Entry.dir) :: fs) rest

/-- Render a path back to a string for the status messages. -/
def pathStr (p : List String) : String :=
  String.intercalate "/" p

/-- Embedding of `create_path` (src/nextflow_generator/main.py lines 21-46).

`content = none` models Python's `content is None`: the directory branch,
`path_obj.mkdir(parents=True, exist_ok=True)`.  Any present content — the
empty string included — takes the file branch:
`path_obj.parent.mkdir(parents=True, exist_ok=True)` followed by
`open(path_obj, 'w').write(content)`, which truncates and overwrites an
existing file but fails with `IsADirectoryError` if the path is an
existing directory.  The surrounding `try/except` turns every failure into
a returned message string, never a raised fault. -/
def create_path (fs : FS) (path : List String) (content : Option String) : FS × String :=
  match content with
  | none =>
    match mkdirAll fs (chains path) with
    | (fs', none) => (fs', "Successfully created folder: " ++ pathStr path)
    | (fs', some e) => (fs', "Error creating path: " ++ e)
  | some c =>
    match mkdirAll fs (chains path.dropLast) with
    | (fs', none) =>
      match fs'.lookup path with
      | some Entry.dir => (fs', "Error creating path: IsADirectoryError")
      | _ => ((path, Entry.file c) :: fs', "Successfully created file: " ++ pathStr path)
    | (fs', some e) => (fs', "Error creating path: " ++ e)

/-- A pipeline stage as configured in the source: the agent's name, the
context keys its instruction template references (the `{key}` placeholders),
its declared `output_key`, and the names of the tools handed to it. -/
structure Stage where
  name : String
  template_refs : List String
  output_key : String
  tools : List String
deriving DecidableEq, Repr

/-- Embedding of `create_todo_agent` (main.py lines 53-79): no template
references, output key `project_metadata`, no tools. -/
def create_todo_agent : Stage :=
  { name := "TodoAgent", template_refs := [],
    output_key := "project_metadata", tools := [] }

/-- Embedding of `create_structure_agent` (main.py lines 82-106). -/
def create_structure_agent : Stage :=
  { name := "StructureAgent", template_refs := ["project_metadata"],
    output_key := "main_nf_summary", tools := ["create_path"] }

/-- Embedding of `create_test_agent` (main.py lines 109-132). -/
def create_test_agent : Stage :=
  { name := "TestAgent", template_refs := ["project_metadata", "main_nf_summary"],
    output_key := "test_summary", tools := ["create_path"] }

/-- Embedding of `create_config_agent` (main.py lines 135-156). -/
def create_config_agent : Stage :=
  { name := "ConfigAgent", template_refs := ["project_metadata"],
    output_key := "config_summary", tools := ["create_path"] }

/-- Embedding of `create_workflow_agent` (main.py lines 159-184). -/
def create_workflow_agent : Stage :=
  { name := "WorkflowAgent",
    template_refs := ["project_metadata", "main_nf_summary", "test_summary",
                      "config_summary"],
    output_key := "workflow_summary", tools := ["create_path"] }

/-- The `sub_agents` list of the `SequentialAgent` (main.py lines 206-209),
in declaration order. -/
def pipeline_stages : List Stage :=
  [create_todo_agent, create_structure_agent, create_test_agent,
   create_config_agent, create_workflow_agent]

/-- The insertion-ordered context store mapping stage output keys to the
produced text. -/
abbrev ContextStore := List (String × String)

/-- The keys of a context store, in insertion order. -/
def ContextStore.keys (ctx : ContextStore) : List String := ctx.map Prod.fst

/-- Modelled from the spec: the sequential orchestration loop (it lives in
google.adk's `SequentialAgent`/`Runner`, not in the repository).  The
abstract reasoning service maps the current context and the stage to the
stage's produced text; the orchestrator records each stage's output under
its declared key before the next stage starts. -/
def runPipeline (service : ContextStore → Stage → String) :
    List Stage → ContextStore → ContextStore
  | [], ctx => ctx
  | s :: rest, ctx => runPipeline service rest (ctx ++ [(s.output_key, service ctx s)])

/-- Modelled from the spec: the run trace — each executed stage paired with
the output it produced, in execution order. -/
def runEvents (service : ContextStore → Stage → String) :
    List Stage → ContextStore → List (Stage × String)
  | [], _ => []
  | s :: rest, ctx =>
    (s, service ctx s) :: runEvents service rest (ctx ++ [(s.output_key, service ctx s)])

/-- The context store after the first `i` stages of the configured
pipeline, starting from the empty store. -/
def contextAfter (service : ContextStore → Stage → String) (i : Nat) : ContextStore :=
  runPipeline service (pipeline_stages.take i) []

/-- Modelled from the spec: the pipeline's aggregate result is the final
stage's output. -/
def runAggregate (service : ContextStore → Stage → String) : Option String :=
  ((runEvents service pipeline_stages []).map Prod.snd).getLast?

/-- Modelled from the spec: build-time validation of a stage list — every
template reference must be a key produced by a strictly earlier stage, and
no output key may repeat.  `avail` accumulates the keys declared so far. -/
def checkStages : List String → List Stage → Bool
  | _, [] => true
  | avail, s :: rest =>
    s.template_refs.all (fun r => avail.contains r) &&
    !(avail.contains s.output_key) &&
    checkStages (avail ++ [s.output_key]) rest

/-- Modelled from the spec: pipeline construction — a misconfigured stage
list is rejected with a ConfigurationError before any stage runs. -/
def buildPipeline (stages : List Stage) : Except String (List Stage) :=
  if checkStages [] stages then Except.ok stages else Except.error "ConfigurationError"

/-- Modelled from the spec: an instrumented run that fails at run time
exactly where the store contract would — `UnresolvedReference` when a
rendered template references an absent key, `DuplicateKey` when an output
key is already present. -/
def runPipelineChecked (service : ContextStore → Stage → String) :
    List Stage → ContextStore → Except String ContextStore
  | [], ctx => Except.ok ctx
  | s :: rest, ctx =>
    if s.template_refs.all (fun r => (ContextStore.keys ctx).contains r) then
      if (ContextStore.keys ctx).contains s.output_key then
        Except.error "DuplicateKey"
      else runPipelineChecked service rest (ctx ++ [(s.output_key, service ctx s)])
    else Except.error "UnresolvedReference"

/-- Embedding of the `types.HttpRetryOptions` value constructed in main.py
lines 14-19. -/
structure HttpRetryOptions where
  attempts : Nat
  exp_base : Nat
  initial_delay : Nat
  http_status_codes : List Nat
deriving DecidableEq, Repr

/-- The retry configuration of the source (main.py lines 14-19). -/
def retry_config : HttpRetryOptions :=
  { attempts := 5, exp_base := 7, initial_delay := 1,
    http_status_codes := [429, 500, 503, 504] }

/-- The outcome of a retried operation: success, an immediately propagated
non-retryable error, or exhaustion carrying the last underlying error
(the spec's TransientFailureExhausted). -/
inductive RetryResult (α : Type) where
  | ok (a : α)
  | nonRetryable (code : Nat)
  | exhausted (lastError : Nat)
deriving DecidableEq, Repr

/-- The observable trace of a retried call: how many attempts were made,
the delays slept before each reattempt (in order), and the outcome. -/
structure RetryTrace (α : Type) where
  attemptsMade : Nat
  delays : List Nat
  outcome : RetryResult α
deriving DecidableEq, Repr

/-- Modelled from the spec: the retry loop driven by `HttpRetryOptions`
(the loop lives in the google.genai client, not in the repository).  The
operation maps the 1-based attempt number to a result or an HTTP error
code.  A retryable failure sleeps `initial_delay * exp_base ^ (attempt - 1)`
seconds and retries; a non-retryable failure stops at once; exhausting all
`attempts` tries fails carrying the last error. -/
def retryGo {α : Type} (cfg : HttpRetryOptions) (op : Nat → Except Nat α)
    (attempt : Nat) : Nat → RetryTrace α
  | 0 => { attemptsMade := 0, delays := [], outcome := RetryResult.exhausted 0 }
  | remaining + 1 =>
    match op attempt with
    | Except.ok a => { attemptsMade := 1, delays := [], outcome := RetryResult.ok a }
    | Except.error code =>
      if code ∈ cfg.http_status_codes then
        if remaining = 0 then
          { attemptsMade := 1, delays := [], outcome := RetryResult.exhausted code }
        else
          let t := retryGo cfg op (attempt + 1) remaining
          { attemptsMade := t.attemptsMade + 1,
            delays := cfg.initial_delay * cfg.exp_base ^ (attempt - 1) :: t.delays,
            outcome := t.outcome }
      else { attemptsMade := 1, delays := [], outcome := RetryResult.nonRetryable code }

/-- Modelled from the spec: `execute(operation)` — run the operation under
the retry policy, starting at attempt 1 with the configured total number
of tries. -/
def execute {α : Type} (cfg : HttpRetryOptions) (op : Nat → Except Nat α) : RetryTrace α :=
  retryGo cfg op 1 cfg.attempts

/-- Embedding of the `EventsCompactionConfig` constructed in main.py lines
217-220. -/
structure EventsCompactionConfig where
  compaction_interval : Nat
  overlap_size : Nat
deriving DecidableEq, Repr

/-- The compaction configuration of the source (main.py lines 217-220). -/
def events_compaction_config : EventsCompactionConfig :=
  { compaction_interval := 5, overlap_size := 2 }

/-- Modelled from the spec: the session state compaction acts on — the
named output keys (structural pipeline state), the interaction history,
and the count of completed units. -/
structure SessionState where
  context : ContextStore
  history : List String
  completed : Nat
deriving DecidableEq, Repr

/-- Modelled from the spec: compaction condenses the oldest history entries
into one summarized entry, keeps the newest `overlap_size` entries, and
leaves the named output keys untouched. -/
def compactSession (cfg : EventsCompactionConfig) (summarize : List String → String)
    (st : SessionState) : SessionState :=
  { st with history :=
      summarize (st.history.take (st.history.length - cfg.overlap_size)) ::
        st.history.drop (st.history.length - cfg.overlap_size) }

/-- Modelled from the spec: completing one unit appends its event to the
history and triggers compaction exactly when the completed-unit count
reaches a multiple of `compaction_interval`. -/
def completeUnit (cfg : EventsCompactionConfig) (summarize : List String → String)
    (ev : String) (st : SessionState) : SessionState :=
  let st1 : SessionState :=
    { st with history := st.history ++ [ev], completed := st.completed + 1 }
  if st1.completed % cfg.compaction_interval = 0 then compactSession cfg summarize st1
  else st1

/-- Looking up through any freshly consed entry. -/
theorem FS.lookup_cons (fs : FS) (p q : List String) (e : Entry) :
    FS.lookup ((p, e) :: fs) q = if p = q then some e else fs.lookup q := by
  simp [FS.lookup]

/-- Looking up through a freshly created directory entry. -/
theorem FS.lookup_cons_dir (fs : FS) (p q : List String) :
    FS.lookup ((p, Entry.dir) :: fs) q = if p = q then some Entry.dir else fs.lookup q := by
  simp [FS.lookup]

/-- A path that held no file still holds no file after a directory entry is
added. -/
theorem isFileAt_cons_dir {fs : FS} {q : List String} (p : List String)
    (h : fs.isFileAt q = false) : FS.isFileAt ((p, Entry.dir) :: fs) q = false := by
  unfold FS.isFileAt at h ⊢
  rw [FS.lookup_cons_dir]
  by_cases hpq : p = q
  · simp [hpq]
  · simpa [hpq] using h

/-- `mkdirAll` never erases an existing entry: any stored entry survives. -/
theorem mkdirAll_lookup_mono (q : List String) (e : Entry) (ps : List (List String)) :
    ∀ fs : FS, fs.lookup q = some e → ((mkdirAll fs ps).1).lookup q = some e := by
  induction ps with
  | nil => intro fs h; exact h
  | cons p rest ih =>
    intro fs h
    unfold mkdirAll
    cases hfp : fs.lookup p with
    | none =>
      have hne : ¬ p = q := by
        intro hpq; rw [hpq, h] at hfp; cases hfp
      refine ih _ ?_
      rw [FS.lookup_cons_dir]
      simp [hne, h]
    | some en =>
      cases en with
      | dir => exact ih fs h
      | file c => simpa using h

/-- If no touched path holds a file, `mkdirAll` reports no error. -/
theorem mkdirAll_ok (ps : List (List String)) :
    ∀ fs : FS, (∀ p ∈ ps, fs.isFileAt p = false) → (mkdirAll fs ps).2 = none := by
  induction ps with
  | nil => intro fs _; rfl
  | cons p rest ih =>
    intro fs h
    unfold mkdirAll
    cases hfp : fs.lookup p with
    | none =>
      exact ih _ (fun r hr => isFileAt_cons_dir p (h r (List.mem_cons_of_mem p hr)))
    | some en =>
      cases en with
      | dir => exact ih fs (fun r hr => h r (List.mem_cons_of_mem p hr))
      | file c =>
        have := h p (List.mem_cons_self p rest)
        rw [FS.isFileAt, hfp] at this
        cases this

/-- After a successful `mkdirAll`, every touched path is a directory. -/
theorem mkdirAll_dirs (ps : List (List String)) :
    ∀ fs : FS, (∀ p ∈ ps, fs.isFileAt p = false) →
      ∀ p ∈ ps, ((mkdirAll fs ps).1).lookup p = some Entry.dir := by
  induction ps with
  | nil => intro fs _ p hp; cases hp
  | cons p rest ih =>
    intro fs h q hq
    unfold mkdirAll
    cases hfp : fs.lookup p with
    | none =>
      rcases List.mem_cons.mp hq with hqp | hqrest
      · subst hqp
        exact mkdirAll_lookup_mono q Entry.dir rest _ (by rw [FS.lookup_cons_dir]; simp)
      · exact ih _ (fun r hr => isFileAt_cons_dir p (h r (List.mem_cons_of_mem p hr))) q hqrest
    | some en =>
      cases en with
      | dir =>
        rcases List.mem_cons.mp hq with hqp | hqrest
        · subst hqp
          exact mkdirAll_lookup_mono q Entry.dir rest fs hfp
        · exact ih fs (fun r hr => h r (List.mem_cons_of_mem p hr)) q hqrest
      | file c =>
        have := h p (List.mem_cons_self p rest)
        rw [FS.isFileAt, hfp] at this
        cases this

/-- `mkdirAll` over paths that are already directories is the identity. -/
theorem mkdirAll_all_dirs (ps : List (List String)) :
    ∀ fs : FS, (∀ p ∈ ps, fs.lookup p = some Entry.dir) → mkdirAll fs ps = (fs, none) := by
  induction ps with
  | nil => intro fs _; rfl
  | cons p rest ih =>
    intro fs h
    unfold mkdirAll
    rw [h p (List.mem_cons_self p rest)]
    exact ih fs (fun r hr => h r (List.mem_cons_of_mem p hr))

/-- `mkdirAll` leaves paths outside its list untouched. -/
theorem mkdirAll_lookup_not_mem (q : List String) (ps : List (List String)) :
    ∀ fs : FS, q ∉ ps → ((mkdirAll fs ps).1).lookup q = fs.lookup q := by
  induction ps with
  | nil => intro fs _; rfl
  | cons p rest ih =>
    intro fs hq
    have hqrest : q ∉ rest := fun h => hq (List.mem_cons_of_mem p h)
    have hqp : ¬ p = q := fun h => hq (h ▸ List.mem_cons_self p rest)
    unfold mkdirAll
    cases hfp : fs.lookup p with
    | none =>
      rw [ih _ hqrest, FS.lookup_cons_dir]
      simp [hqp]
    | some en =>
      cases en with
      | dir => exact ih fs hqrest
      | file c => rfl

/-- Every member of `chains l` is no longer than `l`. -/
theorem mem_chains_length {l : List String} {p : List String} (h : p ∈ chains l) :
    p.length ≤ l.length := by
  induction l generalizing p with
  | nil => cases h
  | cons a rest ih =>
    unfold chains at h
    rcases List.mem_cons.mp h with hp | hp
    · subst hp; simp
    · rcases List.mem_map.mp hp with ⟨q, hq, rfl⟩
      have := ih hq
      simp
      omega

/-- A path is never among the chains of its own parent. -/
theorem self_not_mem_chains_dropLast (path : List String) :
    path ∉ chains path.dropLast := by
  intro hm
  cases path with
  | nil => simp [chains] at hm
  | cons a rest =>
    have hle := mem_chains_length hm
    rw [List.length_dropLast] at hle
    simp only [List.length_cons] at hle
    omega

/-- On the success path, the file branch of `create_path` creates the
parent chain and prepends the file entry, reporting success. -/
theorem create_path_file_ok (fs : FS) (path : List String) (c : String)
    (hanc : ∀ q ∈ chains path.dropLast, fs.isFileAt q = false)
    (hnotdir : fs.lookup path ≠ some Entry.dir) :
    create_path fs path (some c) =
      ((path, Entry.file c) :: (mkdirAll fs (chains path.dropLast)).1,
       "Successfully created file: " ++ pathStr path) := by
  rcases hm : mkdirAll fs (chains path.dropLast) with ⟨fs1, err⟩
  have herr : err = none := by
    have := mkdirAll_ok (chains path.dropLast) fs hanc
    rw [hm] at this
    exact this
  subst herr
  have hsame : fs1.lookup path = fs.lookup path := by
    have := mkdirAll_lookup_not_mem path (chains path.dropLast) fs
      (self_not_mem_chains_dropLast path)
    rw [hm] at this
    exact this
  unfold create_path
  rw [hm]
  cases hlp : fs1.lookup path with
  | none => simp [hlp]
  | some en =>
    cases en with
    | dir => rw [hsame] at hlp; exact absurd hlp hnotdir
    | file s => simp [hlp]

/-- On the success path, the directory branch of `create_path` creates the
whole chain and reports success. -/
theorem create_path_dir_ok (fs : FS) (path : List String)
    (hanc : ∀ q ∈ chains path, fs.isFileAt q = false) :
    create_path fs path none =
      ((mkdirAll fs (chains path)).1, "Successfully created folder: " ++ pathStr path) := by
  rcases hm : mkdirAll fs (chains path) with ⟨fs1, err⟩
  have herr : err = none := by
    have := mkdirAll_ok (chains path) fs hanc
    rw [hm] at this
    exact this
  subst herr
  unfold create_path
  rw [hm]

/-- A directory-branch call on a filesystem where the whole chain already
consists of directories is a no-op returning the success message. -/
theorem create_path_dir_noop (fs : FS) (path : List String)
    (h : ∀ q ∈ chains path, fs.lookup q = some Entry.dir) :
    create_path fs path none = (fs, "Successfully created folder: " ++ pathStr path) := by
  unfold create_path
  rw [mkdirAll_all_dirs (chains path) fs h]

/-- C4: for every nonempty path whose ancestors are not files and which is
not itself a directory, `create_path path content` creates all missing
ancestor directories and writes exactly `content` at the path, reporting
success; a second call with different content overwrites, leaving exactly
the second content. -/
theorem create_path_file_overwrite (fs : FS) (path : List String) (c1 c2 : String)
    (hne : path ≠ [])
    (hanc : ∀ q ∈ chains path.dropLast, fs.isFileAt q = false)
    (hnotdir : fs.lookup path ≠ some Entry.dir) :
    (create_path fs path (some c1)).2 = "Successfully created file: " ++ pathStr path ∧
    ((create_path fs path (some c1)).1).lookup path = some (Entry.file c1) ∧
    (∀ q ∈ chains path.dropLast,
        ((create_path fs path (some c1)).1).lookup q = some Entry.dir) ∧
    (create_path (create_path fs path (some c1)).1 path (some c2)).2 =
        "Successfully created file: " ++ pathStr path ∧
    ((create_path (create_path fs path (some c1)).1 path (some c2)).1).lookup path =
      some (Entry.file c2) := by
  have h1 := create_path_file_ok fs path c1 hanc hnotdir
  have hqne : ∀ q ∈ chains path.dropLast, ¬ path = q := by
    intro q hq hpq
    exact self_not_mem_chains_dropLast path (hpq ▸ hq)
  have hdirs1 : ∀ q ∈ chains path.dropLast,
      ((create_path fs path (some c1)).1).lookup q = some Entry.dir := by
    intro q hq
    rw [h1]
    show FS.lookup ((path, Entry.file c1) :: (mkdirAll fs (chains path.dropLast)).1) q =
      some Entry.dir
    rw [FS.lookup_cons, if_neg (hqne q hq)]
    exact mkdirAll_dirs (chains path.dropLast) fs hanc q hq
  have hlp1 : ((create_path fs path (some c1)).1).lookup path = some (Entry.file c1) := by
    rw [h1]
    show FS.lookup ((path, Entry.file c1) :: (mkdirAll fs (chains path.dropLast)).1) path =
      some (Entry.file c1)
    rw [FS.lookup_cons, if_pos rfl]
  have hanc1 : ∀ q ∈ chains path.dropLast,
      ((create_path fs path (some c1)).1).isFileAt q = false := by
    intro q hq
    unfold FS.isFileAt
    rw [hdirs1 q hq]
  have hnotdir1 : ((create_path fs path (some c1)).1).lookup path ≠ some Entry.dir := by
    rw [hlp1]
    intro h
    cases h
  have h2 := create_path_file_ok ((create_path fs path (some c1)).1) path c2 hanc1 hnotdir1
  refine ⟨by rw [h1], hlp1, hdirs1, by rw [h2], ?_⟩
  rw [h2]
  show FS.lookup ((path, Entry.file c2) :: _) path = some (Entry.file c2)
  rw [FS.lookup_cons, if_pos rfl]

/-- C4 witness: on the empty filesystem, writing `"hello"` then `"world"`
to `a/b/c.txt` succeeds and leaves exactly `"world"`. -/
theorem create_path_file_overwrite_witness :
    (create_path ([] : FS) ["a", "b", "c.txt"] (some "hello")).2 =
        "Successfully created file: " ++ pathStr ["a", "b", "c.txt"] ∧
    ((create_path (create_path ([] : FS) ["a", "b", "c.txt"] (some "hello")).1
        ["a", "b", "c.txt"] (some "world")).1).lookup ["a", "b", "c.txt"] =
      some (Entry.file "world") :=
  ⟨(create_path_file_overwrite ([] : FS) ["a", "b", "c.txt"] "hello" "world"
      (by decide) (by decide) (by decide)).1,
   (create_path_file_overwrite ([] : FS) ["a", "b", "c.txt"] "hello" "world"
      (by decide) (by decide) (by decide)).2.2.2.2⟩

/-- C5: the directory branch of `create_path` creates the path and all
missing ancestors, and a second invocation on the same path succeeds with
the same message and leaves the filesystem literally unchanged. -/
theorem create_path_dir_idempotent (fs : FS) (path : List String)
    (hanc : ∀ q ∈ chains path, fs.isFileAt q = false) :
    (create_path fs path none).2 = "Successfully created folder: " ++ pathStr path ∧
    (∀ q ∈ chains path, ((create_path fs path none).1).lookup q = some Entry.dir) ∧
    create_path (create_path fs path none).1 path none =
      ((create_path fs path none).1, "Successfully created folder: " ++ pathStr path) := by
  have h1 := create_path_dir_ok fs path hanc
  have hdirs : ∀ q ∈ chains path, ((create_path fs path none).1).lookup q = some Entry.dir := by
    intro q hq
    rw [h1]
    exact mkdirAll_dirs (chains path) fs hanc q hq
  exact ⟨by rw [h1], hdirs, create_path_dir_noop _ path hdirs⟩

/-- C5 witness: on the empty filesystem, creating directory `a/b/c` twice
succeeds both times and the second call changes nothing. -/
theorem create_path_dir_idempotent_witness :
    (create_path ([] : FS) ["a", "b", "c"] none).2 =
        "Successfully created folder: " ++ pathStr ["a", "b", "c"] ∧
    create_path (create_path ([] : FS) ["a", "b", "c"] none).1 ["a", "b", "c"] none =
      ((create_path ([] : FS) ["a", "b", "c"] none).1,
       "Successfully created folder: " ++ pathStr ["a", "b", "c"]) :=
  ⟨(create_path_dir_idempotent ([] : FS) ["a", "b", "c"] (by decide)).1,
   (create_path_dir_idempotent ([] : FS) ["a", "b", "c"] (by decide)).2.2⟩

/-- C6: `create_path` never raises: every invocation, on every filesystem,
path and content, returns a status string — a folder-success message, a
file-success message, or a descriptive error message. -/
theorem create_path_always_returns_status (fs : FS) (path : List String)
    (content : Option String) :
    (create_path fs path content).2 = "Successfully created folder: " ++ pathStr path ∨
    (create_path fs path content).2 = "Successfully created file: " ++ pathStr path ∨
    ∃ e, (create_path fs path content).2 = "Error creating path: " ++ e := by
  unfold create_path
  cases content with
  | none =>
    rcases hm : mkdirAll fs (chains path) with ⟨fs1, err⟩
    cases err with
    | none => exact Or.inl rfl
    | some e => exact Or.inr (Or.inr ⟨e, rfl⟩)
  | some c =>
    rcases hm : mkdirAll fs (chains path.dropLast) with ⟨fs1, err⟩
    cases err with
    | some e => exact Or.inr (Or.inr ⟨e, rfl⟩)
    | none =>
      cases hlp : fs1.lookup path with
      | none =>
        simp only [hlp]
        exact Or.inr (Or.inl trivial)
      | some en =>
        cases en with
        | dir =>
          simp only [hlp]
          exact Or.inr (Or.inr ⟨"IsADirectoryError", rfl⟩)
        | file s =>
          simp only [hlp]
          exact Or.inr (Or.inl trivial)

/-- C10: the empty string is not `None`: `create_path path ""` takes the
file branch, creating the parent directories and writing an empty file at
the path, with the file-success message. -/
theorem create_path_empty_content_file_branch (fs : FS) (path : List String)
    (hne : path ≠ [])
    (hanc : ∀ q ∈ chains path.dropLast, fs.isFileAt q = false)
    (hnotdir : fs.lookup path ≠ some Entry.dir) :
    (create_path fs path (some "")).2 = "Successfully created file: " ++ pathStr path ∧
    ((create_path fs path (some "")).1).lookup path = some (Entry.file "") ∧
    (∀ q ∈ chains path.dropLast,
        ((create_path fs path (some "")).1).lookup q = some Entry.dir) := by
  have h1 := create_path_file_ok fs path "" hanc hnotdir
  have hqne : ∀ q ∈ chains path.dropLast, ¬ path = q := by
    intro q hq hpq
    exact self_not_mem_chains_dropLast path (hpq ▸ hq)
  refine ⟨by rw [h1], ?_, ?_⟩
  · rw [h1]
    show FS.lookup ((path, Entry.file "") :: (mkdirAll fs (chains path.dropLast)).1) path =
      some (Entry.file "")
    rw [FS.lookup_cons, if_pos rfl]
  · intro q hq
    rw [h1]
    show FS.lookup ((path, Entry.file "") :: (mkdirAll fs (chains path.dropLast)).1) q =
      some Entry.dir
    rw [FS.lookup_cons, if_neg (hqne q hq)]
    exact mkdirAll_dirs (chains path.dropLast) fs hanc q hq

/-- C10 witness: writing `""` to `a/b/empty.txt` on the empty filesystem
produces the file-success message and a file entry with empty content. -/
theorem create_path_empty_content_file_branch_witness :
    (create_path ([] : FS) ["a", "b", "empty.txt"] (some "")).2 =
        "Successfully created file: " ++ pathStr ["a", "b", "empty.txt"] ∧
    ((create_path ([] : FS) ["a", "b", "empty.txt"] (some "")).1).lookup
        ["a", "b", "empty.txt"] = some (Entry.file "") :=
  ⟨(create_path_empty_content_file_branch ([] : FS) ["a", "b", "empty.txt"]
      (by decide) (by decide) (by decide)).1,
   (create_path_empty_content_file_branch ([] : FS) ["a", "b", "empty.txt"]
      (by decide) (by decide) (by decide)).2.1⟩

/-- Running a stage list appends exactly its output keys, in order. -/
theorem runPipeline_keys (service : ContextStore → Stage → String) (ss : List Stage) :
    ∀ ctx : ContextStore, ContextStore.keys (runPipeline service ss ctx) =
      ContextStore.keys ctx ++ ss.map Stage.output_key := by
  induction ss with
  | nil => intro ctx; simp [runPipeline]
  | cons s rest ih =>
    intro ctx
    rw [runPipeline, ih]
    simp [ContextStore.keys]

/-- Running a stage list only ever appends to the context store. -/
theorem runPipeline_extends (service : ContextStore → Stage → String) (ss : List Stage) :
    ∀ ctx : ContextStore, ∃ tail, runPipeline service ss ctx = ctx ++ tail := by
  induction ss with
  | nil => intro ctx; exact ⟨[], by simp [runPipeline]⟩
  | cons s rest ih =>
    intro ctx
    obtain ⟨tail, ht⟩ := ih (ctx ++ [(s.output_key, service ctx s)])
    refine ⟨[(s.output_key, service ctx s)] ++ tail, ?_⟩
    rw [runPipeline, ht, List.append_assoc]

/-- Running a concatenation of stage lists runs them in sequence. -/
theorem runPipeline_append (service : ContextStore → Stage → String)
    (l1 l2 : List Stage) : ∀ ctx : ContextStore,
    runPipeline service (l1 ++ l2) ctx = runPipeline service l2 (runPipeline service l1 ctx) := by
  induction l1 with
  | nil => intro ctx; rfl
  | cons s rest ih => intro ctx; rw [List.cons_append, runPipeline, runPipeline, ih]

/-- C1: after stage `i`, the context keys are exactly the output keys of
stages 1..i in declaration order; a later stage only appends, never
overwrites or deletes; and the declared keys are the five distinct keys of
the source, in order. -/
theorem context_keys_after_stage (service : ContextStore → Stage → String) (i : Nat) :
    ContextStore.keys (contextAfter service i) =
      (pipeline_stages.take i).map Stage.output_key ∧
    (∃ tail, contextAfter service (i + 1) = contextAfter service i ++ tail) ∧
    (pipeline_stages.map Stage.output_key).Nodup ∧
    pipeline_stages.map Stage.output_key =
      ["project_metadata", "main_nf_summary", "test_summary", "config_summary",
       "workflow_summary"] := by
  refine ⟨?_, ?_, by decide, rfl⟩
  · have h := runPipeline_keys service (pipeline_stages.take i) ([] : ContextStore)
    simpa [contextAfter, ContextStore.keys] using h
  · obtain ⟨tail, ht⟩ :=
      runPipeline_extends service (pipeline_stages[i]?.toList) (contextAfter service i)
    refine ⟨tail, ?_⟩
    show runPipeline service (pipeline_stages.take (i + 1)) [] = _
    rw [List.take_succ, runPipeline_append]
    exact ht

/-- C2: the orchestrator executes the five stages exactly once each, in
declaration order; stage 5 runs on the context recorded after stages 1..4;
and the pipeline's aggregate result is the final stage's output. -/
theorem pipeline_executes_stages_in_order (service : ContextStore → Stage → String) :
    (runEvents service pipeline_stages []).map Prod.fst = pipeline_stages ∧
    (runEvents service pipeline_stages []).length = 5 ∧
    runAggregate service =
      some (service (contextAfter service 4) create_workflow_agent) ∧
    contextAfter service 5 =
      contextAfter service 4 ++
        [(create_workflow_agent.output_key,
          service (contextAfter service 4) create_workflow_agent)] := by
  refine ⟨rfl, rfl, rfl, rfl⟩

/-- For every context whose keys satisfy the build-time check, the
instrumented run hits no runtime store error and agrees with the plain
run. -/
theorem checkStages_sound (service : ContextStore → Stage → String) (ss : List Stage) :
    ∀ ctx : ContextStore, checkStages (ContextStore.keys ctx) ss = true →
      runPipelineChecked service ss ctx = Except.ok (runPipeline service ss ctx) := by
  induction ss with
  | nil => intro ctx _; rfl
  | cons s rest ih =>
    intro ctx h
    rw [checkStages] at h
    simp only [Bool.and_eq_true, Bool.not_eq_true'] at h
    obtain ⟨⟨hrefs, hdup⟩, hrest⟩ := h
    rw [runPipelineChecked, runPipeline, if_pos hrefs]
    rw [hdup]
    simp only [Bool.false_eq_true, if_false]
    apply ih
    have hkeys : ContextStore.keys (ctx ++ [(s.output_key, service ctx s)]) =
        ContextStore.keys ctx ++ [s.output_key] := by
      simp [ContextStore.keys]
    rw [hkeys]
    exact hrest

/-- C8: a configuration error — duplicate output key or a reference to a
key not produced by an earlier stage — is rejected at construction, before
any stage runs; and a stage list that construction accepts never fails at
run time with DuplicateKey or UnresolvedReference.  The concrete pipeline
of the source passes construction. -/
theorem config_error_build_time (stages : List Stage)
    (service : ContextStore → Stage → String) :
    (checkStages [] stages = false →
        buildPipeline stages = Except.error "ConfigurationError") ∧
    (checkStages [] stages = true →
        buildPipeline stages = Except.ok stages ∧
        runPipelineChecked service stages [] =
          Except.ok (runPipeline service stages [])) ∧
    buildPipeline pipeline_stages = Except.ok pipeline_stages := by
  refine ⟨?_, ?_, rfl⟩
  · intro h
    rw [buildPipeline, h]
    rfl
  · intro h
    refine ⟨by rw [buildPipeline, h]; rfl, ?_⟩
    exact checkStages_sound service stages ([] : ContextStore) h

/-- C8 witness: the concrete pipeline passes construction, and its
instrumented run with a constant reasoning service completes without any
runtime store error. -/
theorem config_error_build_time_witness :
    buildPipeline pipeline_stages = Except.ok pipeline_stages ∧
    runPipelineChecked (fun _ _ => "out") pipeline_stages [] =
      Except.ok (runPipeline (fun _ _ => "out") pipeline_stages []) :=
  (config_error_build_time pipeline_stages (fun _ _ => "out")).2.1 (by rfl)

/-- The retry loop never makes more attempts than it has fuel. -/
theorem retryGo_attempts_le {α : Type} (cfg : HttpRetryOptions)
    (op : Nat → Except Nat α) : ∀ (fuel attempt : Nat),
    (retryGo cfg op attempt fuel).attemptsMade ≤ fuel := by
  intro fuel
  induction fuel with
  | zero => intro attempt; exact Nat.le_refl 0
  | succ rem ih =>
    intro attempt
    rw [retryGo]
    cases hop : op attempt with
    | ok a => dsimp only; omega
    | error code =>
      dsimp only
      by_cases hmem : code ∈ cfg.http_status_codes
      · rw [if_pos hmem]
        by_cases hrem : rem = 0
        · rw [if_pos hrem]
          dsimp only
          omega
        · rw [if_neg hrem]
          dsimp only
          have := ih (attempt + 1)
          omega
      · rw [if_neg hmem]
        dsimp only
        omega

/-- An exhausted outcome means every attempt in the window failed with a
retryable code, and the carried error is the last attempt's error. -/
theorem retryGo_exhausted_sound {α : Type} (cfg : HttpRetryOptions)
    (op : Nat → Except Nat α) : ∀ (fuel attempt e : Nat), 0 < fuel →
    (retryGo cfg op attempt fuel).outcome = RetryResult.exhausted e →
    (∀ j, attempt ≤ j → j < attempt + fuel →
        ∃ c, op j = Except.error c ∧ c ∈ cfg.http_status_codes) ∧
    op (attempt + fuel - 1) = Except.error e := by
  intro fuel
  induction fuel with
  | zero => intro attempt e h; omega
  | succ rem ih =>
    intro attempt e _ hout
    rw [retryGo] at hout
    cases hop : op attempt with
    | ok a =>
      rw [hop] at hout
      simp at hout
    | error code =>
      rw [hop] at hout
      dsimp only at hout
      by_cases hmem : code ∈ cfg.http_status_codes
      · rw [if_pos hmem] at hout
        by_cases hrem : rem = 0
        · rw [if_pos hrem] at hout
          dsimp only at hout
          simp only [RetryResult.exhausted.injEq] at hout
          subst hout
          subst hrem
          refine ⟨?_, by simpa using hop⟩
          intro j hj1 hj2
          have hje : j = attempt := by omega
          exact ⟨code, hje ▸ hop, hmem⟩
        · rw [if_neg hrem] at hout
          dsimp only at hout
          have hrec := ih (attempt + 1) e (Nat.pos_of_ne_zero hrem) hout
          refine ⟨?_, ?_⟩
          · intro j hj1 hj2
            by_cases hja : j = attempt
            · exact ⟨code, hja ▸ hop, hmem⟩
            · exact hrec.1 j (by omega) (by omega)
          · have h2 := hrec.2
            have harith : attempt + 1 + rem - 1 = attempt + (rem + 1) - 1 := by omega
            rw [harith] at h2
            exact h2
      · rw [if_neg hmem] at hout
        simp at hout

/-- One retryable failure with fuel remaining: sleep the backoff delay and
recurse on the next attempt. -/
theorem retryGo_step_retry {α : Type} (cfg : HttpRetryOptions) (op : Nat → Except Nat α)
    (attempt rem c : Nat) (hop : op attempt = Except.error c)
    (hmem : c ∈ cfg.http_status_codes) (hrem : rem ≠ 0) :
    retryGo cfg op attempt (rem + 1) =
      { attemptsMade := (retryGo cfg op (attempt + 1) rem).attemptsMade + 1,
        delays := cfg.initial_delay * cfg.exp_base ^ (attempt - 1) ::
          (retryGo cfg op (attempt + 1) rem).delays,
        outcome := (retryGo cfg op (attempt + 1) rem).outcome } := by
  rw [retryGo, hop]
  dsimp only
  rw [if_pos hmem, if_neg hrem]

/-- A retryable failure on the final try exhausts the policy, carrying the
last error. -/
theorem retryGo_last_retry {α : Type} (cfg : HttpRetryOptions) (op : Nat → Except Nat α)
    (attempt c : Nat) (hop : op attempt = Except.error c)
    (hmem : c ∈ cfg.http_status_codes) :
    retryGo cfg op attempt 1 =
      { attemptsMade := 1, delays := [], outcome := RetryResult.exhausted c } := by
  rw [retryGo, hop]
  dsimp only
  rw [if_pos hmem]
  norm_num

/-- C3: under the configured retry options (5 attempts, base 7, initial
delay 1), any operation is attempted at most 5 times; and when every
attempt fails with a retryable status, exactly 5 attempts are made and the
delays slept before attempts 2..5 are exactly 1, 7, 49 and 343 seconds. -/
theorem retry_schedule (op : Nat → Except Nat Unit) :
    (execute retry_config op).attemptsMade ≤ 5 ∧
    ((∀ k, 1 ≤ k → k ≤ 5 →
        ∃ c, op k = Except.error c ∧ c ∈ retry_config.http_status_codes) →
      (execute retry_config op).attemptsMade = 5 ∧
      (execute retry_config op).delays = [1, 7, 49, 343]) := by
  refine ⟨retryGo_attempts_le retry_config op 5 1, ?_⟩
  intro h
  obtain ⟨c1, e1, m1⟩ := h 1 (by omega) (by omega)
  obtain ⟨c2, e2, m2⟩ := h 2 (by omega) (by omega)
  obtain ⟨c3, e3, m3⟩ := h 3 (by omega) (by omega)
  obtain ⟨c4, e4, m4⟩ := h 4 (by omega) (by omega)
  obtain ⟨c5, e5, m5⟩ := h 5 (by omega) (by omega)
  have s1 := retryGo_step_retry retry_config op 1 4 c1 e1 m1 (by omega)
  have s2 := retryGo_step_retry retry_config op 2 3 c2 e2 m2 (by omega)
  have s3 := retryGo_step_retry retry_config op 3 2 c3 e3 m3 (by omega)
  have s4 := retryGo_step_retry retry_config op 4 1 c4 e4 m4 (by omega)
  have s5 := retryGo_last_retry retry_config op 5 c5 e5 m5
  have hd : retry_config.initial_delay = 1 := rfl
  have hb : retry_config.exp_base = 7 := rfl
  simp only [hd, hb] at s1 s2 s3 s4
  norm_num at s1 s2 s3 s4
  have hcfg : retry_config.attempts = 5 := rfl
  rw [execute, hcfg, s1, s2, s3, s4, s5]
  norm_num

/-- C3 witness: an operation failing every attempt with HTTP 429 is
attempted exactly 5 times with the delay sequence 1, 7, 49, 343. -/
theorem retry_schedule_witness :
    (execute retry_config (fun _ => (Except.error 429 : Except Nat Unit))).attemptsMade = 5 ∧
    (execute retry_config (fun _ => (Except.error 429 : Except Nat Unit))).delays =
      [1, 7, 49, 343] :=
  (retry_schedule (fun _ => Except.error 429)).2
    (fun _ _ _ => ⟨429, rfl, by decide⟩)

/-- C7: a non-retryable failure on the first attempt stops `execute` at
once — one attempt, no delay — and an exhausted outcome can only arise
when all 5 attempts failed with retryable codes, in which case the carried
error is the last attempt's underlying error. -/
theorem nonretryable_immediate_retryable_exhausts (op : Nat → Except Nat Unit) :
    (∀ c, op 1 = Except.error c → c ∉ retry_config.http_status_codes →
        execute retry_config op =
          { attemptsMade := 1, delays := [], outcome := RetryResult.nonRetryable c }) ∧
    (∀ e, (execute retry_config op).outcome = RetryResult.exhausted e →
        (∀ k, 1 ≤ k → k ≤ 5 →
            ∃ c, op k = Except.error c ∧ c ∈ retry_config.http_status_codes) ∧
        op 5 = Except.error e) := by
  constructor
  · intro c hop hmem
    rw [execute]
    show retryGo retry_config op 1 (4 + 1) = _
    rw [retryGo, hop]
    dsimp only
    rw [if_neg hmem]
  · intro e hout
    have h := retryGo_exhausted_sound retry_config op 5 1 e (by omega) hout
    refine ⟨?_, by simpa using h.2⟩
    intro k hk1 hk5
    exact h.1 k hk1 (by omega)

/-- C7 witness: a non-retryable HTTP 400 on attempt 1 stops immediately
with no delay; an operation failing every attempt with HTTP 500 exhausts
the policy carrying 500 as the last error. -/
theorem nonretryable_immediate_retryable_exhausts_witness :
    execute retry_config (fun _ => (Except.error 400 : Except Nat Unit)) =
      { attemptsMade := 1, delays := [], outcome := RetryResult.nonRetryable 400 } ∧
    (fun _ => (Except.error 500 : Except Nat Unit)) 5 = Except.error 500 :=
  ⟨(nonretryable_immediate_retryable_exhausts (fun _ => Except.error 400)).1 400 rfl
      (by decide),
   ((nonretryable_immediate_retryable_exhausts (fun _ => Except.error 500)).2 500
      (by rfl)).2⟩

/-- C9: compaction is triggered exactly every `compaction_interval = 5`
completed units, and whenever it runs it rewrites only the interaction
history: the named output keys of the context store survive verbatim, so
every key a not-yet-executed stage references is still present. -/
theorem compaction_preserves_output_keys (summarize : List String → String)
    (ev : String) (st : SessionState) :
    events_compaction_config.compaction_interval = 5 ∧
    (compactSession events_compaction_config summarize st).context = st.context ∧
    (completeUnit events_compaction_config summarize ev st).context = st.context ∧
    completeUnit events_compaction_config summarize ev st =
      (if (st.completed + 1) % 5 = 0
       then compactSession events_compaction_config summarize
              { st with history := st.history ++ [ev], completed := st.completed + 1 }
       else { st with history := st.history ++ [ev], completed := st.completed + 1 }) := by
  refine ⟨rfl, rfl, ?_, rfl⟩
  rw [completeUnit]
  by_cases h : (st.completed + 1) % events_compaction_config.compaction_interval = 0
  · simp only [h, if_true]
    rfl
  · simp only [h, if_false]

end NFGen
